import Mathlib

/-!
Verification of the mtail tailer and log-watcher core
(`internal/tailer/file.go` together with the watcher part of the same
source file).

The Go code is embedded shallowly: pure data flow becomes Lean
functions; calls into the operating system (`os.Stat`, `os.OpenFile`,
`Seek`, `filepath.Abs`, `filepath.Dir`, the fsnotify backend) become
explicit oracle parameters or oracle fields recording the outcome the
OS would return, so that every function stays executable.  Machine
integers are modelled as `Nat`/`Int`; none of the modelled quantities
can overflow their Go types in the scenarios considered.
-/

/-! ## Tailed-file state (`File` in file.go)

`pending` is the `partial *bytes.Buffer` accumulator of an in-progress
line (renamed), `lines` the sequence of line records sent on the
output channel, `truncs` the `log_truncates_total` counter for this
file.  Byte buffers and line records are lists of byte values. -/

structure TailState where
  pending : List Nat
  lines : List (List Nat)
  truncs : Nat
deriving DecidableEq

/-- `File.sendLine` (file.go lines 229-237): emits the pending buffer as a
line record and resets it.  The `partialLock` guard flag only serialises
concurrent access and has no effect on the single-consumer value model. -/
def sendLineM (st : TailState) : TailState :=
  { st with lines := st.lines ++ [st.pending], pending := [] }

/-! ## UTF-8 decoding and encoding

`File.Read` decodes the chunk with `unicode/utf8.DecodeRune` and appends
runes with `bytes.Buffer.WriteRune`.  Both stdlib functions are embedded
faithfully below.  Go's bit operations are written with `/`, `%`, `*`
and `+`: on the byte ranges selected by the branch conditions,
`b0 & 0x1F = b0 - 0xC0`, `b0 & 0x0F = b0 - 0xE0`, `b0 & 0x07 = b0 - 0xF0`,
`b & 0x3F = b - 0x80`, and shift-or of disjoint bit ranges is
multiply-add, so the arithmetic form computes the same values. -/

/-- `utf8.DecodeRune`: returns the first rune of the byte list and the
number of bytes it consumed.  Invalid or truncated encodings yield
`(0xFFFD, 1)` (the replacement character `RuneError`), the empty input
yields `(0xFFFD, 0)`, exactly as in Go. -/
def decodeRune (p : List Nat) : Nat × Nat :=
  match p with
  | [] => (0xFFFD, 0)
  | b0 :: tail =>
    if b0 < 0x80 then (b0, 1)
    else if b0 < 0xC2 then (0xFFFD, 1)
    else if b0 < 0xE0 then
      match tail with
      | b1 :: _ =>
        if 0x80 ≤ b1 ∧ b1 ≤ 0xBF then ((b0 - 0xC0) * 64 + (b1 - 0x80), 2)
        else (0xFFFD, 1)
      | [] => (0xFFFD, 1)
    else if b0 < 0xF0 then
      match tail with
      | b1 :: b2 :: _ =>
        if (if b0 = 0xE0 then 0xA0 else 0x80) ≤ b1 ∧ b1 ≤ (if b0 = 0xED then 0x9F else 0xBF)
            ∧ 0x80 ≤ b2 ∧ b2 ≤ 0xBF then
          ((b0 - 0xE0) * 4096 + (b1 - 0x80) * 64 + (b2 - 0x80), 3)
        else (0xFFFD, 1)
      | _ => (0xFFFD, 1)
    else if b0 < 0xF5 then
      match tail with
      | b1 :: b2 :: b3 :: _ =>
        if (if b0 = 0xF0 then 0x90 else 0x80) ≤ b1 ∧ b1 ≤ (if b0 = 0xF4 then 0x8F else 0xBF)
            ∧ 0x80 ≤ b2 ∧ b2 ≤ 0xBF ∧ 0x80 ≤ b3 ∧ b3 ≤ 0xBF then
          ((b0 - 0xF0) * 262144 + (b1 - 0x80) * 4096 + (b2 - 0x80) * 64 + (b3 - 0x80), 4)
        else (0xFFFD, 1)
      | _ => (0xFFFD, 1)
    else (0xFFFD, 1)

/-- `utf8.EncodeRune` as used by `bytes.Buffer.WriteRune`: the UTF-8
byte sequence of a rune; surrogates and out-of-range values are encoded
as the replacement character, as in Go. -/
def encodeRune (r : Nat) : List Nat :=
  if r < 0x80 then [r]
  else if r < 0x800 then [0xC0 + r / 64, 0x80 + r % 64]
  else if (0xD800 ≤ r ∧ r < 0xE000) ∨ 0x10FFFF < r then [0xEF, 0xBF, 0xBD]
  else if r < 0x10000 then [0xE0 + r / 4096, 0x80 + r / 64 % 64, 0x80 + r % 64]
  else [0xF0 + r / 262144, 0x80 + r / 4096 % 64, 0x80 + r / 64 % 64, 0x80 + r % 64]

/-- A Unicode scalar value: in range and not a surrogate. -/
def IsScalar (c : Nat) : Prop := c < 0x110000 ∧ (c < 0xD800 ∨ 0xE000 ≤ c)

instance (c : Nat) : Decidable (IsScalar c) := by unfold IsScalar; infer_instance

/-! ## The decode loop of `File.Read` (file.go lines 196-209)

The Go loop walks the chunk with `i += width`, appending every rune
other than a newline to the pending buffer via `WriteRune` and flushing
the buffer on each newline.  The loop index advances by at least one
byte per iteration, so running it with fuel equal to the chunk length
is exact. -/

def processLoop (fuel : Nat) (p : List Nat) (st : TailState) : TailState :=
  match fuel, p with
  | 0, _ => st
  | _ + 1, [] => st
  | fuel + 1, b0 :: tail =>
    let d := decodeRune (b0 :: tail)
    if d.1 = 10 then processLoop fuel ((b0 :: tail).drop d.2) (sendLineM st)
    else processLoop fuel ((b0 :: tail).drop d.2)
      { st with pending := st.pending ++ encodeRune d.1 }

/-- One chunk of bytes handed back by `f.file.Read`, pushed through the
decode loop of `File.Read`. -/
def processBytes (p : List Nat) (st : TailState) : TailState :=
  processLoop p.length p st

/-- Successive read chunks (within one `Read` pass or across passes: the
buffer `b` is refilled from the file each iteration and the pending
line survives in `f.partial`). -/
def readChunks (chunks : List (List Nat)) (st : TailState) : TailState :=
  chunks.foldl (fun s c => processBytes c s) st

/-- A fresh `File`'s reading state. -/
def initialTail : TailState := ⟨[], [], 0⟩

/-- The full tailer run over a sequence of read chunks. -/
def tailRun (chunks : List (List Nat)) : TailState := readChunks chunks initialTail

/-- `File.Close` (file.go lines 276-281): flush the pending line if it is
non-empty, then close the descriptor (the descriptor is not modelled). -/
def closeFlush (st : TailState) : TailState :=
  if 0 < st.pending.length then sendLineM st else st

/-- Reconstruction of the byte stream from emitted line records: each
flushed record corresponds to one `\n` consumed from the input. -/
def joinNL : List (List Nat) → List Nat
  | [] => []
  | l :: ls => l ++ 10 :: joinNL ls

/-- Concatenation of all chunks: the appended file content. -/
def concatAll : List (List Nat) → List Nat
  | [] => []
  | c :: cs => c ++ concatAll cs

/-- A byte list that is a concatenation of complete UTF-8 encodings of
scalar values, i.e. a chunk whose boundaries do not split a codepoint. -/
inductive Utf8Chunk : List Nat → Prop
  | nil : Utf8Chunk []
  | cons (c : Nat) (rest : List Nat) : IsScalar c → Utf8Chunk rest →
      Utf8Chunk (encodeRune c ++ rest)

/-! ## Round-trip lemmas for the decode loop -/

theorem encodeRune_ne_nil (c : Nat) : encodeRune c ≠ [] := by
  unfold encodeRune
  split <;> try simp
  split <;> try simp
  split <;> try simp
  split <;> simp

theorem decode_encode (c : Nat) (rest : List Nat) (h : IsScalar c) :
    decodeRune (encodeRune c ++ rest) = (c, (encodeRune c).length) := by
  obtain ⟨h1, h2⟩ := h
  by_cases hA : c < 0x80
  · simp [encodeRune, decodeRune, hA]
  · by_cases hB : c < 0x800
    · have henc : encodeRune c = [0xC0 + c / 64, 0x80 + c % 64] := by
        unfold encodeRune
        rw [if_neg hA, if_pos hB]
      rw [henc]
      have hb0a : ¬ (0xC0 + c / 64 < 0x80) := by omega
      have hb0b : ¬ (0xC0 + c / 64 < 0xC2) := by omega
      have hb0c : 0xC0 + c / 64 < 0xE0 := by omega
      have hb1 : 0x80 ≤ 0x80 + c % 64 ∧ 0x80 + c % 64 ≤ 0xBF := by omega
      simp only [decodeRune, List.cons_append, if_neg hb0a, if_neg hb0b, if_pos hb0c,
        if_pos hb1, List.length_cons, List.length_nil]
      refine Prod.ext ?_ rfl
      simp only
      omega
    · by_cases hC : c < 0x10000
      · have hsurr : ¬ ((0xD800 ≤ c ∧ c < 0xE000) ∨ 0x10FFFF < c) := by omega
        have henc : encodeRune c = [0xE0 + c / 4096, 0x80 + c / 64 % 64, 0x80 + c % 64] := by
          unfold encodeRune
          rw [if_neg hA, if_neg hB, if_neg hsurr, if_pos hC]
        rw [henc]
        have hb0a : ¬ (0xE0 + c / 4096 < 0x80) := by omega
        have hb0b : ¬ (0xE0 + c / 4096 < 0xC2) := by omega
        have hb0c : ¬ (0xE0 + c / 4096 < 0xE0) := by omega
        have hb0d : 0xE0 + c / 4096 < 0xF0 := by omega
        have hcond : (if 0xE0 + c / 4096 = 0xE0 then 0xA0 else 0x80) ≤ 0x80 + c / 64 % 64
            ∧ 0x80 + c / 64 % 64 ≤ (if 0xE0 + c / 4096 = 0xED then 0x9F else 0xBF)
            ∧ 0x80 ≤ 0x80 + c % 64 ∧ 0x80 + c % 64 ≤ 0xBF := by
          refine ⟨?_, ?_, by omega, by omega⟩
          · split
            · omega
            · omega
          · split
            · omega
            · omega
        simp only [decodeRune, List.cons_append, if_neg hb0a, if_neg hb0b, if_neg hb0c,
          if_pos hb0d, if_pos hcond, List.length_cons, List.length_nil]
        refine Prod.ext ?_ rfl
        simp only
        omega
      · have hD : c < 0x110000 := h1
        have hsurr : ¬ ((0xD800 ≤ c ∧ c < 0xE000) ∨ 0x10FFFF < c) := by omega
        have henc : encodeRune c
            = [0xF0 + c / 262144, 0x80 + c / 4096 % 64, 0x80 + c / 64 % 64, 0x80 + c % 64] := by
          unfold encodeRune
          rw [if_neg hA, if_neg hB, if_neg hsurr, if_neg hC]
        rw [henc]
        have hb0a : ¬ (0xF0 + c / 262144 < 0x80) := by omega
        have hb0b : ¬ (0xF0 + c / 262144 < 0xC2) := by omega
        have hb0c : ¬ (0xF0 + c / 262144 < 0xE0) := by omega
        have hb0d : ¬ (0xF0 + c / 262144 < 0xF0) := by omega
        have hb0e : 0xF0 + c / 262144 < 0xF5 := by omega
        have hcond : (if 0xF0 + c / 262144 = 0xF0 then 0x90 else 0x80) ≤ 0x80 + c / 4096 % 64
            ∧ 0x80 + c / 4096 % 64 ≤ (if 0xF0 + c / 262144 = 0xF4 then 0x8F else 0xBF)
            ∧ 0x80 ≤ 0x80 + c / 64 % 64 ∧ 0x80 + c / 64 % 64 ≤ 0xBF
            ∧ 0x80 ≤ 0x80 + c % 64 ∧ 0x80 + c % 64 ≤ 0xBF := by
          refine ⟨?_, ?_, by omega, by omega, by omega, by omega⟩
          · split
            · omega
            · omega
          · split
            · omega
            · omega
        simp only [decodeRune, List.cons_append, if_neg hb0a, if_neg hb0b, if_neg hb0c,
          if_neg hb0d, if_pos hb0e, if_pos hcond, List.length_cons, List.length_nil]
        refine Prod.ext ?_ rfl
        simp only
        omega

theorem joinNL_snoc (xs : List (List Nat)) (y : List Nat) :
    joinNL (xs ++ [y]) = joinNL xs ++ y ++ [10] := by
  induction xs with
  | nil => simp [joinNL]
  | cons a as ih => simp [joinNL, ih]

theorem processLoop_nil (fuel : Nat) (st : TailState) : processLoop fuel [] st = st := by
  cases fuel <;> rfl

theorem processLoop_chunk (b : List Nat) (hb : Utf8Chunk b) :
    ∀ (fuel : Nat), b.length ≤ fuel → ∀ (st : TailState),
      joinNL (processLoop fuel b st).lines ++ (processLoop fuel b st).pending
        = joinNL st.lines ++ st.pending ++ b := by
  induction hb with
  | nil =>
    intro fuel _ st
    rw [processLoop_nil]
    simp
  | cons c rest hsc hrest ih =>
    intro fuel hf st
    have hel : 1 ≤ (encodeRune c).length :=
      List.length_pos.mpr (encodeRune_ne_nil c)
    have hlen : 1 ≤ (encodeRune c ++ rest).length := by
      rw [List.length_append]; omega
    obtain ⟨f, rfl⟩ : ∃ f, fuel = f + 1 := by
      cases fuel with
      | zero => omega
      | succ f => exact ⟨f, rfl⟩
    have hrest_le : rest.length ≤ f := by
      rw [List.length_append] at hf; omega
    have hd : decodeRune (encodeRune c ++ rest) = (c, (encodeRune c).length) :=
      decode_encode c rest hsc
    have hdrop : (encodeRune c ++ rest).drop (encodeRune c).length = rest :=
      List.drop_left _ _
    by_cases hc : c = 10
    · subst hc
      have henc : encodeRune 10 = [10] := rfl
      rw [henc] at hd hdrop ⊢
      simp only [List.cons_append, List.nil_append] at hd hdrop ⊢
      simp only [processLoop, hd]
      simp only [if_true, List.length_cons, List.length_nil]
      rw [show List.drop 1 (10 :: rest) = rest from rfl]
      rw [ih f hrest_le (sendLineM st)]
      simp [sendLineM, joinNL_snoc, List.append_assoc]
    · obtain ⟨e0, etail, henc⟩ : ∃ e0 etail, encodeRune c = e0 :: etail := by
        cases h : encodeRune c with
        | nil => exact absurd h (encodeRune_ne_nil c)
        | cons a l => exact ⟨a, l, rfl⟩
      have hp : encodeRune c ++ rest = e0 :: (etail ++ rest) := by rw [henc]; rfl
      rw [hp] at hd hdrop ⊢
      simp only [processLoop, hd]
      rw [if_neg hc]
      rw [hdrop]
      rw [ih f hrest_le { st with pending := st.pending ++ encodeRune c }]
      simp [List.append_assoc, hp]

theorem readChunks_inv (chunks : List (List Nat)) (h : ∀ c ∈ chunks, Utf8Chunk c) :
    ∀ st, joinNL (readChunks chunks st).lines ++ (readChunks chunks st).pending
      = joinNL st.lines ++ st.pending ++ concatAll chunks := by
  induction chunks with
  | nil =>
    intro st
    simp [readChunks, concatAll]
  | cons c cs ih =>
    intro st
    have hc : Utf8Chunk c := h c (by simp)
    have hcs : ∀ x ∈ cs, Utf8Chunk x := fun x hx => h x (by simp [hx])
    have hstep : readChunks (c :: cs) st = readChunks cs (processBytes c st) := rfl
    rw [hstep, ih hcs]
    have hone := processLoop_chunk c hc c.length (le_refl _) st
    simp only [processBytes]
    rw [hone]
    simp [concatAll, List.append_assoc]

/-- Every list of ASCII bytes is a valid chunk (each byte encodes itself). -/
theorem utf8Chunk_ascii (l : List Nat) (h : ∀ x ∈ l, x < 0x80) : Utf8Chunk l := by
  induction l with
  | nil => exact Utf8Chunk.nil
  | cons a rest ih =>
    have ha : a < 0x80 := h a (by simp)
    have hs : IsScalar a := ⟨by omega, Or.inl (by omega)⟩
    have henc : encodeRune a = [a] := by unfold encodeRune; rw [if_pos ha]
    have hch := Utf8Chunk.cons a rest hs (ih fun x hx => h x (by simp [hx]))
    rw [henc] at hch
    simpa using hch

/-- Claim C1, counterexample.  The multi-byte codepoint U+00E9 (bytes
0xC3 0xA9) split across two read chunks is emitted as two replacement
characters (0xEF 0xBF 0xBD each), because `File.Read` restarts
`utf8.DecodeRune` at every chunk with no carry-over of the incomplete
byte run; the reconstructed output differs from the appended content. -/
theorem C1_counterexample :
    (closeFlush (tailRun [[0xC3], [0xA9]])).lines
        = [[0xEF, 0xBF, 0xBD, 0xEF, 0xBF, 0xBD]]
    ∧ ¬ (joinNL (tailRun [[0xC3], [0xA9]]).lines ++ (tailRun [[0xC3], [0xA9]]).pending
          = concatAll [[0xC3], [0xA9]]) := by
  decide

/-- Claim C1, amended: for every byte sequence and every split into read
chunks whose boundaries do not fall inside a multi-byte codepoint (each
chunk is a concatenation of complete UTF-8 encodings), the emitted line
records with the consumed newlines re-inserted, followed by the pending
unterminated segment, reconstruct the appended content exactly, and
`Close` flushes the unterminated segment exactly once (only when it is
non-empty).  When a boundary does split a codepoint, each fragment byte
becomes a replacement character (see the counterexample). -/
theorem C1_amended_roundtrip (chunks : List (List Nat))
    (h : ∀ c ∈ chunks, Utf8Chunk c) :
    joinNL (tailRun chunks).lines ++ (tailRun chunks).pending = concatAll chunks
    ∧ ((tailRun chunks).pending ≠ [] →
        (closeFlush (tailRun chunks)).lines
          = (tailRun chunks).lines ++ [(tailRun chunks).pending])
    ∧ ((tailRun chunks).pending = [] →
        closeFlush (tailRun chunks) = tailRun chunks) := by
  refine ⟨?_, ?_, ?_⟩
  · have hr := readChunks_inv chunks h initialTail
    simpa [tailRun, initialTail, joinNL] using hr
  · intro hp
    have hlp : 0 < (tailRun chunks).pending.length := List.length_pos.mpr hp
    simp [closeFlush, hlp, sendLineM]
  · intro hp
    simp [closeFlush, hp]

/-- Witness for the amended C1: ASCII content split as the chunks
`"hel"` and `"lo\nw"` reconstructs exactly. -/
theorem C1_witness :
    (∀ c ∈ [[104, 101, 108], [108, 111, 10, 119]], Utf8Chunk c)
    ∧ joinNL (tailRun [[104, 101, 108], [108, 111, 10, 119]]).lines
        ++ (tailRun [[104, 101, 108], [108, 111, 10, 119]]).pending
        = concatAll [[104, 101, 108], [108, 111, 10, 119]] := by
  have h : ∀ c ∈ [[104, 101, 108], [108, 111, 10, 119]], Utf8Chunk c := by
    intro c hc
    simp only [List.mem_cons, List.not_mem_nil, or_false] at hc
    rcases hc with rfl | rfl
    · exact utf8Chunk_ascii _ (by decide)
    · exact utf8Chunk_ascii _ (by decide)
  exact ⟨h, (C1_amended_roundtrip _ h).1⟩

/-! ## Truncation detection (`File.checkForTruncate`, file.go lines 242-270)

The descriptor operations are oracles: `seekCur` is the result of
`f.file.Seek(0, io.SeekCurrent)`, `statSize` the size from
`f.file.Stat()`, `seekStartErr` whether `f.file.Seek(0, io.SeekStart)`
fails.  Offsets and sizes are non-negative in every reachable state, so
`Nat` models the Go `int64` values. -/

structure TruncEnv where
  seekCur : Except Nat Nat
  statSize : Except Nat Nat
  seekStartErr : Bool

structure TruncOut where
  truncated : Bool
  errored : Bool
  st : TailState
  seekedTo : Option Nat
deriving DecidableEq

def checkForTruncate (env : TruncEnv) (st : TailState) : TruncOut :=
  match env.seekCur with
  | .error _ => ⟨false, true, st, none⟩
  | .ok off =>
    match env.statSize with
    | .error _ => ⟨false, true, st, none⟩
    | .ok size =>
      if off = 0 ∨ off ≤ size then ⟨false, false, st, none⟩
      else
        let st1 := if 0 < st.pending.length then sendLineM st else st
        ⟨true, env.seekStartErr, { st1 with truncs := st1.truncs + 1 },
          if env.seekStartErr then none else some 0⟩

/-- Claim C3: `checkForTruncate` reports no truncation exactly when the
current offset is zero or the file size is at least the offset; in the
truncation case it flushes a non-empty pending line as a record, resets
the descriptor to offset zero, increments the truncation counter, and
reports truncated; and an error from the checking seek or the stat
reports no truncation (so the `Read` caller, which restarts only when
`truncated` is true at file.go lines 190-193, does not restart). -/
theorem C3_truncate (env : TruncEnv) (st : TailState) :
    (∀ e, env.seekCur = .error e → checkForTruncate env st = ⟨false, true, st, none⟩)
    ∧ (∀ off e, env.seekCur = .ok off → env.statSize = .error e →
        checkForTruncate env st = ⟨false, true, st, none⟩)
    ∧ (∀ off size, env.seekCur = .ok off → env.statSize = .ok size →
        ((checkForTruncate env st).truncated = false ↔ (off = 0 ∨ off ≤ size)))
    ∧ (∀ off size, env.seekCur = .ok off → env.statSize = .ok size →
        ¬ (off = 0 ∨ off ≤ size) →
        ((st.pending ≠ [] →
            (checkForTruncate env st).st.lines = st.lines ++ [st.pending]
            ∧ (checkForTruncate env st).st.pending = [])
          ∧ (checkForTruncate env st).st.truncs = st.truncs + 1
          ∧ (checkForTruncate env st).truncated = true
          ∧ (env.seekStartErr = false → (checkForTruncate env st).seekedTo = some 0))) := by
  refine ⟨?_, ?_, ?_, ?_⟩
  · intro e he
    simp [checkForTruncate, he]
  · intro off e hs hst
    simp [checkForTruncate, hs, hst]
  · intro off size hs hst
    by_cases hoff : off = 0 ∨ off ≤ size
    · simp [checkForTruncate, hs, hst, hoff]
    · simp [checkForTruncate, hs, hst, hoff]
  · intro off size hs hst hoff
    refine ⟨?_, ?_, ?_, ?_⟩
    · intro hp
      have hlp : 0 < st.pending.length := List.length_pos.mpr hp
      constructor
      · simp [checkForTruncate, hs, hst, hoff, hlp, sendLineM]
      · simp [checkForTruncate, hs, hst, hoff, hlp, sendLineM]
    · by_cases hlp : 0 < st.pending.length
      · simp [checkForTruncate, hs, hst, hoff, hlp, sendLineM]
      · simp [checkForTruncate, hs, hst, hoff, hlp]
    · simp [checkForTruncate, hs, hst, hoff]
    · intro hse
      simp [checkForTruncate, hs, hst, hoff, hse]

/-- Witness for C3: offset 100 with size 10 and a pending line flushes
the line, counts the truncation, seeks to zero and reports truncated. -/
theorem C3_witness :
    ((⟨.ok 100, .ok 10, false⟩ : TruncEnv).seekCur = .ok 100)
    ∧ (¬ ((100 : Nat) = 0 ∨ (100 : Nat) ≤ 10))
    ∧ ((checkForTruncate ⟨.ok 100, .ok 10, false⟩ ⟨[104], [], 0⟩).st.lines = [[104]]
        ∧ (checkForTruncate ⟨.ok 100, .ok 10, false⟩ ⟨[104], [], 0⟩).st.pending = [])
    ∧ (checkForTruncate ⟨.ok 100, .ok 10, false⟩ ⟨[104], [], 0⟩).st.truncs = 1
    ∧ (checkForTruncate ⟨.ok 100, .ok 10, false⟩ ⟨[104], [], 0⟩).truncated = true
    ∧ (checkForTruncate ⟨.ok 100, .ok 10, false⟩ ⟨[104], [], 0⟩).seekedTo = some 0 := by
  have h := (C3_truncate ⟨.ok 100, .ok 10, false⟩ ⟨[104], [], 0⟩).2.2.2 100 10 rfl rfl
    (by decide)
  refine ⟨rfl, by decide, ?_, ?_, h.2.2.1, h.2.2.2 rfl⟩
  · have h1 := h.1 (by decide)
    simpa using h1
  · exact h.2.1

/-! ## Rotation tracking (`File.Follow` and `File.doRotation`,
file.go lines 118-163)

Oracles: `fdStat` is the outcome of `f.file.Stat()` (`none` = error,
`some id` = the device+inode identity); `pathStat` the outcome of
`os.Stat(f.Pathname)`; `reopen k` the outcome of the `open` call inside
the k-th `doRotation` of this `Follow` invocation; `lock` the `f.lock`
gate; `readRes` what the final `f.Read()` would return (`Read` always
ends in an error value, `io.EOF` in the normal case).

`os.SameFile` receives the *nil* `FileInfo` left over from a failed
descriptor stat when the first branch was taken: its internal type
assertion then fails and it returns `false`, which the model reproduces
with `sameFile none _ = false`. -/

def FileId := Nat × Nat
deriving instance DecidableEq for FileId

def sameFile (s1 : Option FileId) (id2 : FileId) : Bool :=
  match s1 with
  | none => false
  | some id1 => decide (id1 = id2)

structure FollowEnv where
  fdStat : Option FileId
  pathStat : Option FileId
  reopen : Nat → Except Nat Nat
  lock : Bool
  readRes : Except Nat Unit

/-- `rotations` counts the `doRotation` invocations (each increments the
`log_rotations_total` counter before attempting the reopen); `didRead`
records whether the normal read pass at the end ran. -/
structure FollowOut where
  rotations : Nat
  result : Except Nat Unit
  didRead : Bool

/-- `File.Follow`: stat the descriptor, rotate on stat failure, then
stat the path, return on its failure, rotate on identity mismatch, and
finally do the normal read unless the gate is held.  `doRotation` is
inlined as "count the invocation, then reopen" (its internal flush read
is absorbed into the oracle). -/
def Follow (env : FollowEnv) : FollowOut :=
  let step1 : Nat × Option Nat :=
    match env.fdStat with
    | none =>
      match env.reopen 0 with
      | .error e => (1, some e)
      | .ok _ => (1, none)
    | some _ => (0, none)
  match step1 with
  | (k, some e) => ⟨k, .error e, false⟩
  | (k, none) =>
    match env.pathStat with
    | none => ⟨k, .ok (), false⟩
    | some id2 =>
      if sameFile env.fdStat id2 then
        if env.lock then ⟨k, .ok (), false⟩ else ⟨k, env.readRes, true⟩
      else
        match env.reopen k with
        | .error e => ⟨k + 1, .error e, false⟩
        | .ok _ =>
          if env.lock then ⟨k + 1, .ok (), false⟩ else ⟨k + 1, env.readRes, true⟩

/-- Claim C2, counterexample.  When the stat on the open descriptor
fails, the reopen succeeds and the path stat succeeds, `Follow`
performs rotation handling twice in one invocation: once for the failed
descriptor stat and again because the identity comparison against the
nil stat result reports a mismatch.  The claim's "at most once,
exclusive branches" is false. -/
theorem C2_counterexample :
    (Follow ⟨none, some (1, 1), fun _ => .ok 0, false, .error 0⟩).rotations = 2
    ∧ ¬ ((Follow ⟨none, some (1, 1), fun _ => .ok 0, false, .error 0⟩).rotations ≤ 1) := by
  constructor
  · rfl
  · intro h
    simp [Follow, sameFile] at h

/-- Claim C2, amended: rotation handling runs at most twice per
`Follow`, and the branches are not exclusive.  If the descriptor stat
fails, `Follow` rotates once and still performs the path stat and the
identity comparison; the comparison against the nil descriptor-stat
result always reports a mismatch, so a successful path stat triggers a
second rotation.  If the descriptor stat succeeds, rotation is
triggered exactly when the device+inode identities differ, and a failed
path stat returns without any action. -/
theorem C2_amended (env : FollowEnv) :
    ((Follow env).rotations ≤ 2)
    ∧ (∀ i1, env.fdStat = some i1 → env.pathStat = none →
        (Follow env).rotations = 0 ∧ (Follow env).result = .ok ()
          ∧ (Follow env).didRead = false)
    ∧ (∀ i1 i2, env.fdStat = some i1 → env.pathStat = some i2 →
        (Follow env).rotations = (if i1 = i2 then 0 else 1))
    ∧ (∀ fd i2, env.fdStat = none → env.reopen 0 = .ok fd → env.pathStat = some i2 →
        (Follow env).rotations = 2)
    ∧ (env.fdStat = none → env.pathStat = none → ∀ fd, env.reopen 0 = .ok fd →
        (Follow env).rotations = 1) := by
  refine ⟨?_, ?_, ?_, ?_, ?_⟩
  · unfold Follow
    rcases hfd : env.fdStat with _ | i1
    · rcases hro : env.reopen 0 with e | fd
      · simp
      · rcases hps : env.pathStat with _ | i2
        · simp
        · simp only [sameFile]
          rcases hro1 : env.reopen 1 with e | fd1 <;> simp [hro1]
          split <;> simp
    · rcases hps : env.pathStat with _ | i2
      · simp
      · simp only [sameFile]
        split
        · split <;> simp
        · rcases hro : env.reopen 0 with e | fd <;> simp [hro]
          split <;> simp
  · intro i1 h1 h2
    simp [Follow, h1, h2]
  · intro i1 i2 h1 h2
    unfold Follow
    simp only [h1, h2, sameFile]
    by_cases hid : i1 = i2
    · simp [hid]
      split <;> rfl
    · have hsf : decide (i1 = i2) = false := by simp [hid]
      simp only [hsf, Bool.false_eq_true, if_false]
      rcases hro : env.reopen 0 with e | fd <;> simp [hro, hid]
      split <;> rfl
  · intro fd i2 h1 hro h2
    simp only [Follow, h1, h2, hro, sameFile]
    rcases hro1 : env.reopen 1 with e | fd1 <;> simp [hro1]
    split <;> rfl
  · intro h1 h2 fd hro
    simp [Follow, h1, h2, hro]

/-- Witness for the amended C2: with a healthy descriptor whose
identity matches the path, no rotation happens. -/
theorem C2_witness :
    ((⟨some (3, 7), some (3, 7), fun _ => .ok 0, false, .error 0⟩ : FollowEnv).fdStat
        = some (3, 7))
    ∧ (Follow ⟨some (3, 7), some (3, 7), fun _ => .ok 0, false, .error 0⟩).rotations = 0 := by
  refine ⟨rfl, ?_⟩
  have h := (C2_amended ⟨some (3, 7), some (3, 7), fun _ => .ok 0, false, .error 0⟩).2.2.1
    (3, 7) (3, 7) rfl rfl
  simpa using h

/-! ## `open` with retry (file.go lines 86-115)

`osOpen k` is the outcome of the k-th `os.OpenFile` call (a descriptor
number or an error code).  The trace records how many open attempts were
made, the sleep durations in milliseconds in order, and the final
result.  Go's loop starts with `retries = 3` and `retryDelay = 1ms`,
sleeps the current delay before each retry and then doubles it, and
retries only when `seenBefore` is set and retries remain. -/

structure OpenTrace where
  attempts : Nat
  sleeps : List Nat
  result : Except Nat Nat

deriving instance DecidableEq for Except

def openGo (osOpen : Nat → Except Nat Nat) (seenBefore : Bool) :
    Nat → Nat → Nat → List Nat → OpenTrace
  | retries, attempt, delay, sleeps =>
    match osOpen attempt with
    | .ok fd => ⟨attempt + 1, sleeps, .ok fd⟩
    | .error e =>
      if seenBefore then
        match retries with
        | r + 1 => openGo osOpen seenBefore r (attempt + 1) (delay + delay) (sleeps ++ [delay])
        | 0 => ⟨attempt + 1, sleeps, .error e⟩
      else ⟨attempt + 1, sleeps, .error e⟩

/-- `open(pathname, seenBefore)` from file.go. -/
def fileOpen (osOpen : Nat → Except Nat Nat) (seenBefore : Bool) : OpenTrace :=
  openGo osOpen seenBefore 3 0 1 []

theorem openGo_attempts_le (osOpen : Nat → Except Nat Nat) (sb : Bool) :
    ∀ (r a d : Nat) (s : List Nat), (openGo osOpen sb r a d s).attempts ≤ a + r + 1 := by
  intro r
  induction r with
  | zero =>
    intro a d s
    unfold openGo
    rcases h : osOpen a with e | fd <;> simp [h]
  | succ r ih =>
    intro a d s
    unfold openGo
    rcases h : osOpen a with e | fd
    · simp only [h]
      split
      · have := ih (a + 1) (d + d) (s ++ [d])
        omega
      · simp
    · simp [h]

/-- Claim C8: with `seenBefore` set, a failed open is retried up to 3
times (at most 4 attempts in total) with sleeps of 1ms, 2ms and 4ms
between attempts, and the last error is returned when every attempt
fails; with `seenBefore` unset there is exactly one attempt and no
sleep, and a failure is returned immediately. -/
theorem C8_open (osOpen : Nat → Except Nat Nat) (e0 e1 e2 e3 : Nat) :
    ((fileOpen osOpen true).attempts ≤ 4)
    ∧ ((fileOpen osOpen false).attempts = 1 ∧ (fileOpen osOpen false).sleeps = [])
    ∧ (osOpen 0 = .error e0 → osOpen 1 = .error e1 → osOpen 2 = .error e2 →
        osOpen 3 = .error e3 →
        fileOpen osOpen true = ⟨4, [1, 2, 4], .error e3⟩)
    ∧ (osOpen 0 = .error e0 → fileOpen osOpen false = ⟨1, [], .error e0⟩) := by
  refine ⟨?_, ?_, ?_, ?_⟩
  · have := openGo_attempts_le osOpen true 3 0 1 []
    simpa [fileOpen] using this
  · unfold fileOpen openGo
    rcases h : osOpen 0 with e | fd <;> simp [h]
  · intro h0 h1 h2 h3
    unfold fileOpen openGo
    rw [h0]
    simp only [if_true]
    unfold openGo
    rw [h1]
    simp only [if_true]
    unfold openGo
    rw [h2]
    simp only [if_true]
    unfold openGo
    rw [h3]
    rfl
  · intro h0
    unfold fileOpen openGo
    rw [h0]
    rfl

/-- Witness for C8: an oracle that always fails yields 4 attempts,
sleeps of 1, 2 and 4 ms, and the attempt-3 error; without `seenBefore`,
one attempt, no sleep, the attempt-0 error. -/
theorem C8_witness :
    ((fun k => Except.error (k + 10) : Nat → Except Nat Nat) 0 = .error 10)
    ∧ fileOpen (fun k => .error (k + 10)) true = ⟨4, [1, 2, 4], .error 13⟩
    ∧ fileOpen (fun k => .error (k + 10)) false = ⟨1, [], .error 10⟩ := by
  have h := C8_open (fun k => .error (k + 10)) 10 11 12 13
  exact ⟨rfl, h.2.2.1 rfl rfl rfl rfl, h.2.2.2 rfl⟩

/-! ## `NewFile` (file.go lines 50-84)

Oracles: the `filepath.Abs` result, the `open` result, the `Stat`
result (carrying the file-type bits of `fi.Mode()`), and whether the
seek on a regular file succeeds.  The Go type-switch accepts a regular
file (seeking it to `io.SeekEnd`, or `io.SeekCurrent` when
`seekToStart` is requested, then falling through into the empty
named-pipe case) or a named pipe (never seeked); every other mode hits
the default case and is an error. -/

inductive FileMode
  | regular
  | namedPipe
  | directory
  | socket
  | device
  | irregular
deriving DecidableEq

inductive SeekW
  | seekEnd
  | seekCurrent
deriving DecidableEq

inductive NewFileErr
  | absFailed
  | openFailed (e : Nat)
  | statFailed (e : Nat)
  | seekFailed
  | badMode
deriving DecidableEq

/-- The observable outcome of a successful `NewFile`: the `regular`
flag stored in the `File`, and which seek (if any) positioned the
descriptor. -/
structure FileRec where
  regular : Bool
  seeked : Option SeekW
deriving DecidableEq

def NewFile (absRes : Option String) (openRes : Except Nat Nat)
    (statRes : Except Nat FileMode) (seekOk : Bool) (seekToStart : Bool) :
    Except NewFileErr FileRec :=
  match absRes with
  | none => .error .absFailed
  | some _ =>
    match openRes with
    | .error e => .error (.openFailed e)
    | .ok _ =>
      match statRes with
      | .error e => .error (.statFailed e)
      | .ok m =>
        match m with
        | .regular =>
          let whence := if seekToStart then SeekW.seekCurrent else SeekW.seekEnd
          if seekOk then .ok ⟨true, some whence⟩ else .error .seekFailed
        | .namedPipe => .ok ⟨false, none⟩
        | _ => .error .badMode

/-- Claim C9: with path resolution, open and stat succeeding and the
seek available, `NewFile` succeeds exactly for regular files and named
pipes; a regular file is seeked to end-of-file by default and to its
current offset when tailing from the start is requested, and a named
pipe is accepted without any seek. -/
theorem C9_newfile (a : String) (fd : Nat) (m : FileMode) (sts : Bool) :
    ((∃ r, NewFile (some a) (.ok fd) (.ok m) true sts = .ok r)
        ↔ (m = .regular ∨ m = .namedPipe))
    ∧ (m = .regular →
        NewFile (some a) (.ok fd) (.ok m) true sts
          = .ok ⟨true, some (if sts then .seekCurrent else .seekEnd)⟩)
    ∧ (m = .namedPipe →
        NewFile (some a) (.ok fd) (.ok m) true sts = .ok ⟨false, none⟩) := by
  refine ⟨⟨?_, ?_⟩, ?_, ?_⟩
  · intro ⟨r, hr⟩
    cases m <;> simp_all [NewFile]
  · intro hm
    rcases hm with hm | hm <;> subst hm
    · exact ⟨⟨true, some (if sts then .seekCurrent else .seekEnd)⟩, rfl⟩
    · exact ⟨⟨false, none⟩, rfl⟩
  · intro hm
    subst hm
    rfl
  · intro hm
    subst hm
    rfl

/-- Witness for C9: a directory is rejected, a regular file is accepted
and seeked to end-of-file, a named pipe is accepted and never seeked. -/
theorem C9_witness :
    (¬ ∃ r, NewFile (some "/l") (.ok 3) (.ok .directory) true false = .ok r)
    ∧ NewFile (some "/l") (.ok 3) (.ok .regular) true false = .ok ⟨true, some .seekEnd⟩
    ∧ NewFile (some "/l") (.ok 3) (.ok .namedPipe) true false = .ok ⟨false, none⟩ := by
  refine ⟨?_, (C9_newfile "/l" 3 .regular false).2.1 rfl,
    (C9_newfile "/l" 3 .namedPipe false).2.2 rfl⟩
  intro hex
  rcases (C9_newfile "/l" 3 .directory false).1.mp hex with h | h <;> exact absurd h (by decide)

/-! ## The log watcher (watcher part of the source, `LogWatcher`)

State model: `native` is the `watcher *fsnotify.Watcher` field (`none`
when the native backend is disabled or unavailable — `NewLogWatcher`
stores the nil pointer in that case); `events` the subscriber queues
issued by `Events`, identified by number, with the list index being the
subscription handle; `watched` the `watched` map as an association
list (insert shadows, delete removes every entry for the key, lookup
takes the first — observably the Go map).

The external `fsnotify` backend is an oracle inside `native`:
`addRes p` is what `watcher.Add(p)` would return and `removeOk p`
whether `watcher.Remove(p)` succeeds.  In Go, calling `Add` on the nil
`*fsnotify.Watcher` dereferences its mutex and panics; the model makes
that a `panicked` outcome.  `filepath.Abs` is the oracle parameter
`absFn` (`none` = error); `filepath.Dir` is the oracle parameter
`dirFn`. -/

inductive NativeAddRes
  | ok
  | permDenied
  | otherErr

structure NativeBackend where
  addRes : String → NativeAddRes
  removeOk : String → Bool

structure LogWatcher where
  native : Option NativeBackend
  events : List Nat
  watched : List (String × Nat)

/-- First-match association-list lookup, the observable behaviour of
the Go map `watched`. -/
def findQ : List (String × Nat) → String → Option Nat
  | [], _ => none
  | (k, v) :: rest, p => if k = p then some v else findQ rest p

inductive AddOutcome
  | ok
  | noSuchHandle
  | absErr
  | watchErr
  | panicked
deriving DecidableEq

inductive RemoveOutcome
  | ok
  | removeErr
deriving DecidableEq

/-- `LogWatcher.IsWatching` (source lines 498-509): resolve the path,
return false on resolution failure, then test map membership. -/
def LogWatcher.IsWatching (absFn : String → Option String) (w : LogWatcher)
    (path : String) : Bool :=
  match absFn path with
  | none => false
  | some a => (findQ w.watched a).isSome

/-- `LogWatcher.Add` (source lines 461-494).  The handle is a Go `int`,
so it is modelled as `Int`.  Note the two panics the Go code can reach:
`w.watcher.Add` on a nil native backend, and `w.events[handle]` when
`handle` is negative or equal to `len(w.events)` (the guard only
rejects `handle > len(w.events)`). -/
def LogWatcher.Add (absFn : String → Option String) (w : LogWatcher)
    (path : String) (handle : Int) : AddOutcome × LogWatcher :=
  if (w.events.length : Int) < handle then (.noSuchHandle, w)
  else if LogWatcher.IsWatching absFn w path then (.ok, w)
  else
    match absFn path with
    | none => (.absErr, w)
    | some absPath =>
      let watchStep : Option AddOutcome :=
        if absPath = "/dev" then none
        else
          match w.native with
          | none => some .panicked
          | some nb =>
            match nb.addRes absPath with
            | .ok => none
            | .permDenied => none
            | .otherErr => some .watchErr
      match watchStep with
      | some o => (o, w)
      | none =>
        if h : 0 ≤ handle ∧ handle.toNat < w.events.length then
          (.ok, { w with
            watched := (absPath, w.events.get ⟨handle.toNat, h.2⟩) :: w.watched })
        else (.panicked, w)

/-- `LogWatcher.Remove` (source lines 511-519): deletes the *raw*
argument key from the map (no path resolution), then asks the native
backend, when present, to drop its watch and propagates its result. -/
def LogWatcher.Remove (w : LogWatcher) (path : String) : RemoveOutcome × LogWatcher :=
  let w2 := { w with watched := w.watched.filter (fun kv => kv.1 != path) }
  match w2.native with
  | some nb => ((if nb.removeOk path then RemoveOutcome.ok else RemoveOutcome.removeErr), w2)
  | none => (.ok, w2)

inductive EventOp
  | create
  | update
  | delete
deriving DecidableEq

structure WEvent where
  op : EventOp
  pathname : String
deriving DecidableEq

/-- `LogWatcher.sendEvent` (source lines 365-380): deliver to the queue
for the exact path, else to the queue for `filepath.Dir` of the path,
else drop.  The Go function returns nothing; `none` models the silent
drop (a log line only). -/
def LogWatcher.sendEvent (dirFn : String → String) (w : LogWatcher)
    (e : WEvent) : Option (Nat × WEvent) :=
  let c0 := findQ w.watched e.pathname
  let c1 := if c0.isSome then c0 else findQ w.watched (dirFn e.pathname)
  match c1 with
  | some c => some (c, e)
  | none => none

/-- `filepath.Abs` for paths that are already absolute and clean: the
identity.  Used to instantiate the oracle in concrete runs. -/
def absId : String → Option String := fun p => some p

/-- `filepath.Abs` under working directory `/cwd`, restricted to the
paths exercised in concrete runs: the relative name `x.log` resolves
to `/cwd/x.log`, absolute clean paths resolve to themselves. -/
def absCwd : String → Option String :=
  fun p => if p = "x.log" then some "/cwd/x.log" else some p

/-- A native backend whose installs and removals all succeed. -/
def nbOk : NativeBackend := ⟨fun _ => .ok, fun _ => true⟩

/-- A watcher with an active native backend, one subscriber queue
(queue id 0, handle 0) and nothing watched. -/
def wOne : LogWatcher := ⟨some nbOk, [0], []⟩

/-- A poll-only watcher (native backend inactive), one subscriber
queue, nothing watched. -/
def wPoll : LogWatcher := ⟨none, [0], []⟩

/-- Claim C4 names a code bug.  With the native backend inactive
(`NewLogWatcher` with fsnotify disabled stores a nil `watcher` and
falls back to polling), `Add` on a fresh resolvable path and a valid
handle reaches `w.watcher.Add(absPath)` unguarded: the method call on
the nil `*fsnotify.Watcher` dereferences its mutex and panics, instead
of recording the mapping and returning success as the spec states
(`Remove` does guard `w.watcher != nil`, so the nil-backend mode is
clearly intended to be supported). -/
theorem C4_poll_add_panics :
    (LogWatcher.Add absId wPoll "/tmp/app.log" 0).1 = AddOutcome.panicked
    ∧ (LogWatcher.Add absId wPoll "/tmp/app.log" 0).2.watched = []
    ∧ LogWatcher.IsWatching absId (LogWatcher.Add absId wPoll "/tmp/app.log" 0).2
        "/tmp/app.log" = false := by
  decide

/-- Claim C10 names a code bug.  The guard rejects only
`handle > len(w.events)`, so `handle = len(w.events)` (and any negative
handle) slips through and `w.events[handle]` panics with an
out-of-range index instead of returning the intended "no such event
handle" error; the registries are left unchanged but no error value is
produced.  Only handles strictly greater than the length are rejected
with the error. -/
theorem C10_handle_bug :
    ((LogWatcher.Add absId wOne "/tmp/x.log" 1).1 = AddOutcome.panicked
      ∧ ¬ ((LogWatcher.Add absId wOne "/tmp/x.log" 1).1 = AddOutcome.noSuchHandle)
      ∧ (LogWatcher.Add absId wOne "/tmp/x.log" 1).2.watched = []
      ∧ (LogWatcher.Add absId wOne "/tmp/x.log" 1).2.events = [0])
    ∧ (LogWatcher.Add absId wOne "/tmp/x.log" (-1)).1 = AddOutcome.panicked
    ∧ (LogWatcher.Add absId wOne "/tmp/x.log" 2).1 = AddOutcome.noSuchHandle := by
  decide

/-- Claim C7: `Add` is idempotent on the path.  For a path that is
already registered, a second `Add` with any valid handle returns
success and leaves the watcher (in particular the registered queue for
that path) unchanged. -/
theorem C7_idempotent_add (absFn : String → Option String) (w : LogWatcher)
    (path : String) (h : Int) (hw : LogWatcher.IsWatching absFn w path = true)
    (_h0 : 0 ≤ h) (h1 : h < (w.events.length : Int)) :
    LogWatcher.Add absFn w path h = (AddOutcome.ok, w) := by
  have hnl : ¬ ((w.events.length : Int) < h) := by omega
  unfold LogWatcher.Add
  rw [if_neg hnl, if_pos hw]

/-- A watcher with two subscriber queues where `/a` is registered to
queue 0 (handle 0's queue). -/
def wReg : LogWatcher := ⟨none, [0, 1], [("/a", 0)]⟩

/-- Witness for C7: re-adding `/a` under the different valid handle 1
is a successful no-op; queue 0 stays the delivery target. -/
theorem C7_witness :
    LogWatcher.IsWatching absId wReg "/a" = true
    ∧ LogWatcher.Add absId wReg "/a" 1 = (AddOutcome.ok, wReg) := by
  have hw : LogWatcher.IsWatching absId wReg "/a" = true := by decide
  exact ⟨hw, C7_idempotent_add absId wReg "/a" 1 hw (by decide) (by decide)⟩

/-- Claim C5, counterexample.  `Add` normalizes its argument but
`Remove` deletes the raw argument string, so for the relative argument
`x.log` (resolving to `/cwd/x.log`) the round trip fails:
`Add` succeeds, `Remove` returns success, and `IsWatching` still
reports true afterwards. -/
theorem C5_counterexample :
    (LogWatcher.Add absCwd wOne "x.log" 0).1 = AddOutcome.ok
    ∧ LogWatcher.IsWatching absCwd (LogWatcher.Add absCwd wOne "x.log" 0).2 "x.log" = true
    ∧ (LogWatcher.Remove (LogWatcher.Add absCwd wOne "x.log" 0).2 "x.log").1
        = RemoveOutcome.ok
    ∧ LogWatcher.IsWatching absCwd
        (LogWatcher.Remove (LogWatcher.Add absCwd wOne "x.log" 0).2 "x.log").2
        "x.log" = true := by
  decide

theorem findQ_filter_self (l : List (String × Nat)) (p : String) :
    findQ (l.filter (fun kv => kv.1 != p)) p = none := by
  induction l with
  | nil => rfl
  | cons kv rest ih =>
    by_cases hk : kv.1 = p
    · simp [List.filter_cons, hk, ih]
    · simp [List.filter_cons, hk, findQ, ih]

/-- Claim C5, amended: the add-then-remove round trip restores
non-membership whenever the argument is already in canonical absolute
form (`filepath.Abs` maps it to itself) — then the key `Remove` deletes
coincides with the key `Add` stored, and `IsWatching` reports false
afterwards.  For relative argument forms the property fails (see the
counterexample), because `Remove` does not normalize its argument. -/
theorem C5_amended (absFn : String → Option String) (w : LogWatcher)
    (path : String) (h : Int) (habs : absFn path = some path)
    (_hok : (LogWatcher.Add absFn w path h).1 = AddOutcome.ok) :
    LogWatcher.IsWatching absFn
      (LogWatcher.Remove (LogWatcher.Add absFn w path h).2 path).2 path = false := by
  have hembed : (LogWatcher.Remove (LogWatcher.Add absFn w path h).2 path).2.watched
      = ((LogWatcher.Add absFn w path h).2.watched.filter (fun kv => kv.1 != path)) := by
    unfold LogWatcher.Remove
    rcases hn : (LogWatcher.Add absFn w path h).2.native with _ | nb <;> simp [hn]
  simp only [LogWatcher.IsWatching, habs, hembed, findQ_filter_self, Option.isSome_none]

/-- Witness for the amended C5: the canonical absolute path `/a` added
to a fresh watcher and then removed is no longer watched. -/
theorem C5_witness :
    absId "/a" = some "/a"
    ∧ (LogWatcher.Add absId wOne "/a" 0).1 = AddOutcome.ok
    ∧ LogWatcher.IsWatching absId
        (LogWatcher.Remove (LogWatcher.Add absId wOne "/a" 0).2 "/a").2 "/a" = false := by
  refine ⟨rfl, by decide, C5_amended absId wOne "/a" 0 rfl (by decide)⟩

/-- Claim C6: `sendEvent` delivers to the queue registered for the
exact event path when one exists, otherwise to the queue registered for
the parent directory when one exists, and otherwise drops the event;
the drop is not an error (the function has no error result at all). -/
theorem C6_dispatch (dirFn : String → String) (w : LogWatcher) (e : WEvent) :
    (∀ q, findQ w.watched e.pathname = some q →
        LogWatcher.sendEvent dirFn w e = some (q, e))
    ∧ (findQ w.watched e.pathname = none →
        ∀ q, findQ w.watched (dirFn e.pathname) = some q →
          LogWatcher.sendEvent dirFn w e = some (q, e))
    ∧ (findQ w.watched e.pathname = none →
        findQ w.watched (dirFn e.pathname) = none →
          LogWatcher.sendEvent dirFn w e = none) := by
  refine ⟨?_, ?_, ?_⟩
  · intro q hq
    simp [LogWatcher.sendEvent, hq]
  · intro h0 q hq
    simp [LogWatcher.sendEvent, h0, hq]
  · intro h0 h1
    simp [LogWatcher.sendEvent, h0, h1]

/-- A watcher with a directory-level subscription: `/logs` maps to
queue 7. -/
def wDir : LogWatcher := ⟨none, [7], [("/logs", 7)]⟩

/-- Witness for C6: an event for `/logs/app.log` (not registered
itself) is delivered to the queue of its parent directory `/logs`. -/
theorem C6_witness :
    findQ wDir.watched "/logs/app.log" = none
    ∧ findQ wDir.watched "/logs" = some 7
    ∧ LogWatcher.sendEvent (fun _ => "/logs") wDir ⟨.create, "/logs/app.log"⟩
        = some (7, ⟨.create, "/logs/app.log"⟩) := by
  refine ⟨by decide, by decide, ?_⟩
  exact (C6_dispatch (fun _ => "/logs") wDir ⟨.create, "/logs/app.log"⟩).2.1
    (by decide) 7 (by decide)
